import Mathlib

/-!
Verification development for the PDF-translation service (`src/app.py`).

The development shallowly embeds the program:

* character-level helpers model the Python string operations used by
  `is_valid_title` (`str.strip`, `str.lower`, `startswith`, substring
  containment, and the regexes `\d\x7b4\x7d` and `\[.*?\]`);
* the title extractor `extract_pdf_title` is modelled over an explicit
  parse outcome (the PyMuPDF document structure: blocks, lines, spans),
  with the `try/except` modelled as the `parseFail` outcome;
* the FastAPI endpoints `upload_pdf` and `continue_translation` are
  modelled as pure state-transition functions over an explicit store
  (the three SQL tables plus the message auto-increment counter) and an
  explicit local disk, with the external Poe calls (`fp.upload_file`,
  `fp.get_bot_response`) supplied as oracle outcomes.

Strings handled character-by-character are modelled as `List Char`;
font sizes (Python floats, used only in comparisons and `max`) are
modelled as `ℚ`.
-/

/-! ## Character-level helpers (Python string operations) -/

/-- Whitespace characters removed by Python `str.strip()` (ASCII part). -/
def isSpaceCh (c : Char) : Bool :=
  c == ' ' || c == '\t' || c == '\n' || c == '\r' || c == '\x0b' || c == '\x0c'

/-- Remove trailing whitespace (Python `str.rstrip()`). -/
def rstripL : List Char → List Char
  | [] => []
  | c :: cs =>
    let r := rstripL cs
    if r.isEmpty && isSpaceCh c then [] else c :: r

/-- Python `str.strip()`: drop leading and trailing whitespace. -/
def stripL (s : List Char) : List Char :=
  rstripL (s.dropWhile isSpaceCh)

/-- Python `str.lower()` (ASCII letters; the inputs here are ASCII/CJK and
CJK characters are fixed by lowercasing in both Python and Lean). -/
def lowerL (s : List Char) : List Char :=
  s.map Char.toLower

/-- Python `str.startswith(p)`. -/
def startsWithL : List Char → List Char → Bool
  | [], _ => true
  | _ :: _, [] => false
  | p :: ps, c :: cs => p == c && startsWithL ps cs

/-- Python `p in s` (substring containment). -/
def containsSubL (p : List Char) : List Char → Bool
  | [] => startsWithL p []
  | c :: cs => startsWithL p (c :: cs) || containsSubL p cs

/-- Python `re.search(r"\d\x7b4\x7d", s)`: four consecutive digits occur. -/
def hasFourDigitRun : List Char → Bool
  | c1 :: c2 :: c3 :: c4 :: rest =>
    (c1.isDigit && c2.isDigit && c3.isDigit && c4.isDigit)
      || hasFourDigitRun (c2 :: c3 :: c4 :: rest)
  | _ => false

/-- Scanning after an opening bracket: a `]` is reached before a newline.
(`.` in a Python regex does not match `\n`.) -/
def scanClose : List Char → Bool
  | [] => false
  | c :: cs => c == ']' || (c != '\n' && scanClose cs)

/-- Python `re.search(r"\[.*?\]", s)`: an `[` is followed by a `]` with no
newline in between. -/
def hasBracketTok : List Char → Bool
  | [] => false
  | c :: cs => (c == '[' && scanClose cs) || hasBracketTok cs

/-- The characters of `"arxiv"`. -/
def arxivChars : List Char := ['a', 'r', 'x', 'i', 'v']

/-! ## `is_valid_title` (src/app.py lines 326-349) -/

/-- `is_valid_title` from `src/app.py`: the candidate-title filter. -/
def is_valid_title (text0 : List Char) : Bool :=
  let text := stripL text0
  if text.length < 10 then false
  else if startsWithL arxivChars (lowerL text) then false
  else if hasFourDigitRun text && containsSubL arxivChars (lowerL text) then false
  else if hasBracketTok text then false
  else if text.contains '@' then false
  else true

/-! ## `extract_pdf_title` (src/app.py lines 352-392) -/

/-- A text span of a PyMuPDF line: its text and its font size. -/
structure Span where
  text : List Char
  size : ℚ

/-- A PyMuPDF line: a list of spans. -/
structure Line where
  spans : List Span

/-- A PyMuPDF block: either carries no `"lines"` key or a list of lines. -/
inductive Block where
  | noLines : Block
  | withLines (lines : List Line) : Block

/-- Outcome of opening and parsing the PDF's first page: `parseFail`
models every exception path (unopenable file, no first page, malformed
structure), all caught by the `try/except` in `extract_pdf_title`. -/
inductive ParseOutcome where
  | parseFail : ParseOutcome
  | parsed (blocks : List Block) : ParseOutcome

/-- The per-line span loop of `extract_pdf_title`: accumulate the text of
non-empty stripped spans (each followed by a space) and the maximum font
size over those spans, starting from `0`. -/
def lineFold (spans : List Span) : List Char × ℚ :=
  spans.foldl
    (fun acc sp =>
      let t := stripL sp.text
      if t.isEmpty then acc else (acc.1 ++ t ++ [' '], max acc.2 sp.size))
    ([], 0)

/-- One line's contribution to the candidate list: the stripped line text
paired with the maximal span font size, kept only if `is_valid_title`. -/
def lineCand (l : Line) : Option (ℚ × List Char) :=
  let p := lineFold l.spans
  let t := stripL p.1
  if is_valid_title t then some (p.2, t) else none

/-- The lines of a block (`[]` when the block has no `"lines"` key). -/
def blockLines : Block → List Line
  | .noLines => []
  | .withLines ls => ls

/-- The candidate list gathered in first-page document order. -/
def candidates (blocks : List Block) : List (ℚ × List Char) :=
  ((blocks.map blockLines).flatten).filterMap lineCand

/-- Stable insertion into a descending-by-font-size list: the inserted
element goes before any element of equal size (it occurs earlier in
document order), matching Python's stable `list.sort(reverse=True)`. -/
def insertDesc (x : ℚ × List Char) : List (ℚ × List Char) → List (ℚ × List Char)
  | [] => [x]
  | y :: ys => if x.1 < y.1 then y :: insertDesc x ys else x :: y :: ys

/-- Stable sort on descending font size, modelling
`candidates.sort(reverse=True, key=lambda x: x[0])`. -/
def sortDesc : List (ℚ × List Char) → List (ℚ × List Char)
  | [] => []
  | x :: xs => insertDesc x (sortDesc xs)

/-- `extract_pdf_title` from `src/app.py`, over the parse outcome. -/
def extract_pdf_title : ParseOutcome → Option (List Char)
  | .parseFail => none
  | .parsed blocks =>
    let cs := candidates blocks
    if cs.isEmpty then none
    else (sortDesc cs).head?.map (fun c => stripL c.2)

/-! ## The conversation ledger (SQL tables of src/app.py lines 27-56) -/

/-- A row of the `conversation` table. -/
structure ConversationRow where
  id : String
  title : Option String
  original_filename : Option String
  status : String
deriving DecidableEq

/-- A row of the `message` table; `id` is the auto-increment primary key
and the sole ordering key. -/
structure MessageRow where
  id : Nat
  conversation_id : String
  role : String
  content : String
deriving DecidableEq

/-- A row of the `filerecord` table. -/
structure FileRecordRow where
  id : String
  conversation_id : String
  filename : String
  filepath : String
  poe_url : Option String
  content_type : Option String
  poe_name : Option String
deriving DecidableEq

/-- The relational store: the three tables in row-insertion (rowid)
order, plus the global auto-increment counter for `MessageRow.id`. -/
structure Store where
  conversations : List ConversationRow
  messages : List MessageRow
  fileRecords : List FileRecordRow
  nextId : Nat
deriving DecidableEq

/-- The local `uploads/` directory: path and byte content of each file,
in creation order. -/
structure Disk where
  files : List (String × List Nat)
deriving DecidableEq

/-- Stable ascending insertion by message id. -/
def insertAsc (x : MessageRow) : List MessageRow → List MessageRow
  | [] => [x]
  | y :: ys => if y.id ≤ x.id then y :: insertAsc x ys else x :: y :: ys

/-- `ORDER BY Message.id`: sort rows ascending by id. -/
def orderById : List MessageRow → List MessageRow
  | [] => []
  | x :: xs => insertAsc x (orderById xs)

/-- The message history of a conversation:
`select(Message).where(conversation_id == cid).order_by(Message.id)`. -/
def listMessages (s : Store) (cid : String) : List MessageRow :=
  orderById (s.messages.filter (fun m => m.conversation_id == cid))

/-! ## Poe protocol objects and oracle outcomes -/

/-- `fp.Attachment`: the external service's reference to an uploaded
file (fields as stored in / rebuilt from the `filerecord` row). -/
structure AttachmentRef where
  url : Option String
  content_type : Option String
  poe_name : Option String
deriving DecidableEq

/-- `fp.ProtocolMessage`: one outbound chat message. -/
structure ProtocolMessage where
  role : String
  content : String
  attachments : List AttachmentRef
deriving DecidableEq

/-- Outcome of the single `fp.upload_file` call: failure, or the
attachment reference (url, content type, name) returned by the CDN. -/
inductive UpOutcome where
  | fail : UpOutcome
  | ok (url content_type nm : String) : UpOutcome

/-- Outcome of one `fp.get_bot_response` stream: failure after some
prefix of chunks (all discarded), or the full ordered chunk list. -/
inductive BotOutcome where
  | fail (partialChunks : List String) : BotOutcome
  | ok (chunks : List String) : BotOutcome

/-- The bot oracle: the outcome of streaming a given outbound message
list (`fp.get_bot_response(messages=...)`). -/
abbrev BotOracle := List ProtocolMessage → BotOutcome

/-- Errors surfaced by the handlers: `HTTPException(400)`,
`HTTPException(404)`, and uncaught external-call failures (HTTP 500). -/
inductive ApiError where
  | validation (detail : String) : ApiError
  | notFound (detail : String) : ApiError
  | upstream : ApiError
deriving DecidableEq

/-- `response_text` accumulation: `response_text += partial.text` over
the streamed chunks in arrival order. -/
def concatChunks (chunks : List String) : String :=
  chunks.foldl (fun a b => a ++ b) ""

/-- The fixed instructional prompt of `upload_pdf`. -/
def initial_prompt : String :=
  "\n翻译这篇论文，每次翻译一章（摘要单独算一章）。\n摘要、章节用 1 级标题，子章节为 2 级标题。\n当我说“继续”时翻译下一章，直到结束。\n请先翻译摘要。\n"

/-- `file.filename.lower().endswith(".pdf")`. -/
def pdfName (filename : String) : Bool :=
  startsWithL (['f', 'd', 'p', '.']) (lowerL filename.data).reverse

/-- `final_title = extracted_title or file.filename`: the extracted
title if present and non-empty (Python `or` treats `""` as falsy),
else the original filename. -/
def uploadTitle (parsed : ParseOutcome) (filename : String) : String :=
  match extract_pdf_title parsed with
  | none => filename
  | some t => if t.isEmpty then filename else String.mk t

/-- The single outbound message of the initial turn: the instructional
prompt with the freshly uploaded attachment attached. -/
def uploadOutbound (url content_type nm : String) : List ProtocolMessage :=
  [⟨"user", initial_prompt, [⟨some url, some content_type, some nm⟩]⟩]

/-! ## `upload_pdf` (src/app.py lines 75-164) -/

/-- `upload_pdf` from `src/app.py`, as a state transition on
`Store × Disk`.  Inputs: the request (`filename`, `api_key`, `bytes`),
the generated identifiers (`cid` for the conversation, `fid` for the
file), and the oracles for `fp.upload_file` (`up`), `fp.get_bot_response`
(`botF`) and the PyMuPDF parse of the saved file (`parsed`).  Returns
the response or error, the new store, and the new disk.  Mirrors the
source order: validation, local save, CDN upload, bot stream, title
extraction, single atomic commit of all four rows. -/
def upload_pdf (s : Store) (d : Disk) (filename api_key : String)
    (bytes : List Nat) (cid fid : String) (up : UpOutcome) (botF : BotOracle)
    (parsed : ParseOutcome) :
    Except ApiError (String × String) × Store × Disk :=
  if api_key = "" then (.error (.validation "API Key is required"), s, d)
  else if ¬ pdfName filename then (.error (.validation "Only PDF files supported"), s, d)
  else if bytes = [] then (.error (.validation "Empty file"), s, d)
  else
    let save_path := "uploads/" ++ fid ++ ".pdf"
    let d1 : Disk := ⟨d.files ++ [(save_path, bytes)]⟩
    match up with
    | .fail => (.error .upstream, s, d1)
    | .ok url content_type nm =>
      match botF (uploadOutbound url content_type nm) with
      | .fail _ => (.error .upstream, s, d1)
      | .ok chunks =>
        let response_text := concatChunks chunks
        let final_title : String := uploadTitle parsed filename
        let s1 : Store :=
          { conversations := s.conversations ++
              [⟨cid, some final_title, some filename, "active"⟩]
            messages := s.messages ++
              [⟨s.nextId, cid, "user", initial_prompt⟩,
               ⟨s.nextId + 1, cid, "bot", response_text⟩]
            fileRecords := s.fileRecords ++
              [⟨fid, cid, filename, save_path, some url, some content_type, some nm⟩]
            nextId := s.nextId + 2 }
        (.ok (cid, response_text), s1, d1)

/-! ## `continue_translation` (src/app.py lines 171-255) -/

/-- The synthetic continuation message appended on every `continue`. -/
def contMsg : ProtocolMessage := ⟨"user", "继续", []⟩

/-- Rebuild the attachment handle from the stored file record
(`fp.Attachment(url=..., content_type=..., name=...)`), never
re-uploading. -/
def rebuildAttachment (fr : FileRecordRow) : AttachmentRef :=
  ⟨fr.poe_url, fr.content_type, fr.poe_name⟩

/-- The outbound message list of a continuation turn: the
`for i, m in enumerate(db_messages)` loop (the attachment re-attached to
message `0` only when its role is `"user"`), then the `"继续"` message. -/
def continue_outbound (fr : FileRecordRow) (ms : List MessageRow) :
    List ProtocolMessage :=
  (ms.enum.map fun p =>
    if p.1 == 0 && p.2.role == "user"
    then ⟨"user", p.2.content, [rebuildAttachment fr]⟩
    else ⟨p.2.role, p.2.content, []⟩) ++ [contMsg]

/-- `continue_translation` from `src/app.py`, as a state transition on
`Store`.  Mirrors the source order: key validation, conversation lookup,
file-record lookup, ascending-id history read, outbound rebuild, bot
stream, atomic commit of the two new messages. -/
def continue_translation (s : Store) (cid api_key : String) (botF : BotOracle) :
    Except ApiError String × Store :=
  if api_key = "" then (.error (.validation "API Key required"), s)
  else
    match s.conversations.find? (fun c => c.id == cid) with
    | none => (.error (.notFound "Conversation not found"), s)
    | some _ =>
      match s.fileRecords.find? (fun fr => fr.conversation_id == cid) with
      | none => (.error (.notFound "File record not found"), s)
      | some fr =>
        let db_messages := listMessages s cid
        match botF (continue_outbound fr db_messages) with
        | .fail _ => (.error .upstream, s)
        | .ok chunks =>
          let response_text := concatChunks chunks
          let s1 : Store :=
            { s with
              messages := s.messages ++
                [⟨s.nextId, cid, "user", "继续"⟩,
                 ⟨s.nextId + 1, cid, "bot", response_text⟩]
              nextId := s.nextId + 2 }
          (.ok response_text, s1)

/-! ## Iterated continuation calls and history-shape predicates -/

/-- One continuation request: its `api_key` and its bot oracle. -/
abbrev ContCall := String × BotOracle

/-- Run a sequence of `continue_translation` calls on one conversation,
threading the store. -/
def runContinues (cid : String) : Store → List ContCall → Store
  | s, [] => s
  | s, c :: rest => runContinues cid (continue_translation s cid c.1 c.2).2 rest

/-- Strictly ascending message ids. -/
def ascIds : List MessageRow → Bool
  | [] => true
  | [_] => true
  | a :: b :: r => a.id < b.id && ascIds (b :: r)

/-- The history is a sequence of (user, bot) turn pairs: even length,
roles alternating `"user"`, `"bot"`, `"user"`, `"bot"`, … -/
def alternatingPairs : List MessageRow → Bool
  | [] => true
  | [_] => false
  | u :: b :: r => u.role == "user" && b.role == "bot" && alternatingPairs r

/-- Store well-formedness: message rows appear in strictly ascending id
order (rowid order = id order for an auto-increment key) and every id is
below the auto-increment counter. -/
def WFStore (s : Store) : Prop :=
  s.messages.Pairwise (fun a b => a.id < b.id) ∧
  ∀ m ∈ s.messages, m.id < s.nextId

/-! ## Helper lemmas: stripping -/

theorem dropWhile_idem (p : Char → Bool) (l : List Char) :
    (l.dropWhile p).dropWhile p = l.dropWhile p := by
  induction l with
  | nil => rfl
  | cons c cs ih =>
    cases h : p c <;> simp [List.dropWhile_cons, h, ih]

theorem rstripL_idem (l : List Char) : rstripL (rstripL l) = rstripL l := by
  induction l with
  | nil => rfl
  | cons c cs ih =>
    simp only [rstripL]
    cases h : (rstripL cs).isEmpty && isSpaceCh c
    · simp only [Bool.false_eq_true, if_false, rstripL, ih, h, Bool.false_eq_true, if_false]
    · simp only [if_true, rstripL]

theorem dropWhile_rstripL (l : List Char) (h : l.dropWhile isSpaceCh = l) :
    (rstripL l).dropWhile isSpaceCh = rstripL l := by
  cases l with
  | nil => rfl
  | cons c cs =>
    have hc : isSpaceCh c = false := by
      cases hc : isSpaceCh c
      · rfl
      · exfalso
        rw [List.dropWhile_cons, hc, if_pos rfl] at h
        have := congrArg List.length h
        have hle := (List.dropWhile_sublist (l := cs) isSpaceCh).length_le
        simp at this
        omega
    simp only [rstripL]
    cases h2 : (rstripL cs).isEmpty && isSpaceCh c
    · simp [List.dropWhile_cons, hc]
    · rfl

theorem stripL_idem (s : List Char) : stripL (stripL s) = stripL s := by
  unfold stripL
  rw [dropWhile_rstripL _ (dropWhile_idem _ _), rstripL_idem]

/-! ## Helper lemmas: the title filter -/

theorem is_valid_title_false_iff_aux (s : List Char) :
    is_valid_title s = false ↔
      ((stripL s).length < 10 ∨
        startsWithL arxivChars (lowerL (stripL s)) = true ∨
        (hasFourDigitRun (stripL s) = true ∧
          containsSubL arxivChars (lowerL (stripL s)) = true) ∨
        hasBracketTok (stripL s) = true ∨
        (stripL s).contains '@' = true) := by
  simp only [is_valid_title]
  split_ifs with h1 h2 h3 h4 h5
  · simp only [true_iff]; exact Or.inl h1
  · simp only [true_iff]; exact Or.inr (Or.inl h2)
  · simp only [true_iff]
    exact Or.inr (Or.inr (Or.inl (by simpa using h3)))
  · simp only [true_iff]; exact Or.inr (Or.inr (Or.inr (Or.inl h4)))
  · simp only [true_iff]; exact Or.inr (Or.inr (Or.inr (Or.inr h5)))
  · simp only [Bool.true_eq_false, false_iff]
    push_neg
    refine ⟨by omega, ?_, ?_, ?_, ?_⟩
    · simpa using h2
    · intro hd
      simp only [Bool.and_eq_true, not_and] at h3
      intro hsub
      exact absurd hsub (by simpa using h3 (by simpa using hd))
    · simpa using h4
    · simpa using h5

/-! ## Helper lemmas: the stable descending sort -/

theorem mem_insertDesc (x a : ℚ × List Char) (l : List (ℚ × List Char)) :
    a ∈ insertDesc x l ↔ a = x ∨ a ∈ l := by
  induction l with
  | nil => simp [insertDesc]
  | cons y ys ih =>
    simp only [insertDesc]
    split_ifs with h
    · simp only [List.mem_cons, ih]
      tauto
    · simp only [List.mem_cons]

theorem mem_sortDesc (a : ℚ × List Char) (l : List (ℚ × List Char)) :
    a ∈ sortDesc l ↔ a ∈ l := by
  induction l with
  | nil => simp [sortDesc]
  | cons x xs ih =>
    simp only [sortDesc, mem_insertDesc, ih, List.mem_cons]

theorem sortDesc_head (l : List (ℚ × List Char)) (hne : l ≠ []) :
    ∃ i : Fin l.length,
      (sortDesc l).head? = some (l.get i) ∧
      (∀ c ∈ l, c.1 ≤ (l.get i).1) ∧
      ∀ j : Fin l.length, (j : ℕ) < (i : ℕ) → (l.get j).1 < (l.get i).1 := by
  induction l with
  | nil => exact absurd rfl hne
  | cons x xs ih =>
    cases xs with
    | nil =>
      refine ⟨⟨0, by simp⟩, by simp [sortDesc, insertDesc], ?_, ?_⟩
      · intro c hc
        simp only [List.mem_singleton] at hc
        simp [hc]
      · intro j hj
        simp at hj
    | cons y ys =>
      obtain ⟨i', h1, h2, h3⟩ := ih (by simp)
      cases hs : sortDesc (y :: ys) with
      | nil =>
        rw [hs] at h1
        simp at h1
      | cons m rest =>
        rw [hs] at h1
        simp only [List.head?_cons, Option.some.injEq] at h1
        subst h1
        rw [show sortDesc (x :: y :: ys) = insertDesc x (sortDesc (y :: ys)) from rfl, hs]
        simp only [insertDesc]
        split_ifs with hlt
        · refine ⟨i'.succ, by simp, ?_, ?_⟩
          · intro c hc
            rcases List.mem_cons.mp hc with hcx | hcm
            · subst hcx
              simpa using le_of_lt hlt
            · simpa using h2 c hcm
          · intro j
            refine Fin.cases ?_ ?_ j
            · intro _
              simpa using hlt
            · intro j' hj'
              have : (j' : ℕ) < (i' : ℕ) := by
                simpa using hj'
              simpa using h3 j' this
        · refine ⟨⟨0, by simp⟩, by simp, ?_, ?_⟩
          · intro c hc
            rcases List.mem_cons.mp hc with hcx | hcm
            · simp [hcx]
            · calc c.1 ≤ ((y :: ys).get i').1 := h2 c hcm
                _ ≤ x.1 := by simpa using le_of_not_lt hlt
          · intro j hj
            simp at hj

theorem length_insertDesc (x : ℚ × List Char) (l : List (ℚ × List Char)) :
    (insertDesc x l).length = l.length + 1 := by
  induction l with
  | nil => rfl
  | cons y ys ih =>
    simp only [insertDesc]
    split_ifs with h
    · simp [ih]
    · simp

theorem sortDesc_eq_nil_iff (l : List (ℚ × List Char)) :
    sortDesc l = [] ↔ l = [] := by
  cases l with
  | nil => simp [sortDesc]
  | cons x xs =>
    simp only [sortDesc]
    constructor
    · intro h
      have := congrArg List.length h
      rw [length_insertDesc] at this
      simp at this
    · intro h
      simp at h

theorem mem_candidates_valid (blocks : List Block) (c : ℚ × List Char)
    (h : c ∈ candidates blocks) :
    is_valid_title c.2 = true ∧ stripL c.2 = c.2 := by
  simp only [candidates, List.mem_filterMap] at h
  obtain ⟨l, _, hl⟩ := h
  simp only [lineCand] at hl
  split_ifs at hl with hv
  · cases hl
    exact ⟨hv, stripL_idem _⟩

/-! ## Claims about the title extractor -/

/-- C6: `is_valid_title(s)` is false exactly when, for the trimmed
string, at least one of the following holds: its length is under 10
characters; it begins with `"arxiv"` case-insensitively; it contains
both a run of 4 digits and the substring `"arxiv"` case-insensitively;
it contains a bracketed token (an `[` followed by a `]`, the regex
`\[.*?\]`); it contains an `@`.  In particular it rejects
`"arXiv:2301.00001 [cs.CL]"`, `"a@b.com"` and `"short"`, and accepts a
plain 20-character sentence with no digits, brackets, or `@`. -/
theorem is_valid_title_rejection_spec :
    (∀ s : List Char,
      is_valid_title s = false ↔
        ((stripL s).length < 10 ∨
          startsWithL arxivChars (lowerL (stripL s)) = true ∨
          (hasFourDigitRun (stripL s) = true ∧
            containsSubL arxivChars (lowerL (stripL s)) = true) ∨
          hasBracketTok (stripL s) = true ∨
          (stripL s).contains '@' = true)) ∧
    is_valid_title "arXiv:2301.00001 [cs.CL]".data = false ∧
    is_valid_title "a@b.com".data = false ∧
    is_valid_title "short".data = false ∧
    "This is a nice paper".data.length = 20 ∧
    is_valid_title "This is a nice paper".data = true :=
  ⟨is_valid_title_false_iff_aux, by decide, by decide, by decide, by decide,
    by decide⟩

/-- C7: `extract_pdf_title` is total (a Lean function into `Option`,
with every internal parsing exception mapped to the `parseFail`
outcome) and returns `none` exactly when the document cannot be
opened/parsed or no line survives the candidate filter (in particular
when the first page has no text blocks). -/
theorem extract_pdf_title_none_iff (o : ParseOutcome) :
    extract_pdf_title o = none ↔
      (o = .parseFail ∨
        ∃ blocks, o = .parsed blocks ∧ candidates blocks = []) := by
  cases o with
  | parseFail => simp [extract_pdf_title]
  | parsed blocks =>
    simp only [extract_pdf_title]
    constructor
    · intro h
      refine Or.inr ⟨blocks, rfl, ?_⟩
      by_contra hne
      rw [if_neg (by simpa using hne)] at h
      rcases hhd : (sortDesc (candidates blocks)).head? with _ | c
      · rw [List.head?_eq_none_iff] at hhd
        exact hne ((sortDesc_eq_nil_iff _).mp hhd)
      · rw [hhd] at h
        simp at h
    · intro h
      rcases h with h | ⟨blocks', hb, hc⟩
      · cases h
      · cases hb
        simp [hc]

/-- C9: whenever `extract_pdf_title` returns a title, that title itself
passes `is_valid_title`: it is already stripped of surrounding
whitespace, has length at least 10, does not begin with `"arxiv"`
case-insensitively, does not combine a 4-digit run with the substring
`"arxiv"`, contains no bracketed token and no `@`, and is non-empty. -/
theorem extract_pdf_title_result_valid (o : ParseOutcome) (t : List Char)
    (h : extract_pdf_title o = some t) :
    is_valid_title t = true ∧ stripL t = t ∧ 10 ≤ t.length ∧
      startsWithL arxivChars (lowerL t) = false ∧
      (hasFourDigitRun t = false ∨ containsSubL arxivChars (lowerL t) = false) ∧
      hasBracketTok t = false ∧ t.contains '@' = false ∧ t ≠ [] := by
  cases o with
  | parseFail => cases h
  | parsed blocks =>
    simp only [extract_pdf_title] at h
    split_ifs at h with he
    rcases hhd : (sortDesc (candidates blocks)).head? with _ | c
    · rw [hhd] at h
      cases h
    · rw [hhd] at h
      replace h : stripL c.2 = t := by simpa using h
      have hmem : c ∈ candidates blocks := by
        have hmem' : c ∈ sortDesc (candidates blocks) := by
          cases hsd : sortDesc (candidates blocks) with
          | nil => rw [hsd] at hhd; cases hhd
          | cons a rest =>
            rw [hsd] at hhd
            simp only [List.head?_cons, Option.some.injEq] at hhd
            rw [hhd]
            exact List.mem_cons_self c rest
        exact (mem_sortDesc c _).mp hmem'
      obtain ⟨hvalid, hstrip⟩ := mem_candidates_valid blocks c hmem
      have ht2 : t = c.2 := by rw [← h, hstrip]
      subst ht2
      have hne' : is_valid_title c.2 ≠ false := by simp [hvalid]
      rw [ne_eq, is_valid_title_false_iff_aux] at hne'
      push_neg at hne'
      rw [hstrip] at hne'
      obtain ⟨h10, harx, hcomb, hbr, hat⟩ := hne'
      refine ⟨hvalid, hstrip, by omega, by simpa using harx, ?_,
        by simpa using hbr, by simpa using hat, ?_⟩
      · by_cases hd : hasFourDigitRun c.2 = true
        · exact Or.inr (by simpa using hcomb hd)
        · exact Or.inl (by simpa using hd)
      · intro hnil
        rw [hnil] at h10
        simp at h10

/-- C5: on a non-empty candidate list gathered in first-page document
order, `extract_pdf_title` returns the line text of the candidate with
the largest font size; among candidates sharing that maximal size the
first in document order wins (the descending sort is stable). -/
theorem extract_pdf_title_first_largest (blocks : List Block)
    (h : candidates blocks ≠ []) :
    ∃ i : Fin (candidates blocks).length,
      extract_pdf_title (.parsed blocks) = some ((candidates blocks).get i).2 ∧
      (∀ c ∈ candidates blocks, c.1 ≤ ((candidates blocks).get i).1) ∧
      ∀ j : Fin (candidates blocks).length, (j : ℕ) < (i : ℕ) →
        ((candidates blocks).get j).1 < ((candidates blocks).get i).1 := by
  obtain ⟨i, h1, h2, h3⟩ := sortDesc_head (candidates blocks) h
  refine ⟨i, ?_, h2, h3⟩
  simp only [extract_pdf_title]
  rw [if_neg (by simpa using h), h1]
  have hstripped :=
    mem_candidates_valid blocks _ (List.get_mem (candidates blocks) i.1 i.2)
  exact congrArg some hstripped.2

/-- Witness for C5 at a concrete two-candidate first page. -/
theorem extract_pdf_title_first_largest_witness :
    candidates [Block.withLines [⟨[⟨"A decent plain title".data, 12⟩]⟩,
        ⟨[⟨"A bigger font title!".data, 20⟩]⟩]] ≠ [] ∧
    ∃ i : Fin (candidates [Block.withLines [⟨[⟨"A decent plain title".data, 12⟩]⟩,
        ⟨[⟨"A bigger font title!".data, 20⟩]⟩]]).length,
      extract_pdf_title (.parsed [Block.withLines [⟨[⟨"A decent plain title".data, 12⟩]⟩,
          ⟨[⟨"A bigger font title!".data, 20⟩]⟩]]) =
        some ((candidates [Block.withLines [⟨[⟨"A decent plain title".data, 12⟩]⟩,
          ⟨[⟨"A bigger font title!".data, 20⟩]⟩]]).get i).2 ∧
      (∀ c ∈ candidates [Block.withLines [⟨[⟨"A decent plain title".data, 12⟩]⟩,
          ⟨[⟨"A bigger font title!".data, 20⟩]⟩]],
        c.1 ≤ ((candidates [Block.withLines [⟨[⟨"A decent plain title".data, 12⟩]⟩,
          ⟨[⟨"A bigger font title!".data, 20⟩]⟩]]).get i).1) ∧
      ∀ j : Fin (candidates [Block.withLines [⟨[⟨"A decent plain title".data, 12⟩]⟩,
          ⟨[⟨"A bigger font title!".data, 20⟩]⟩]]).length, (j : ℕ) < (i : ℕ) →
        ((candidates [Block.withLines [⟨[⟨"A decent plain title".data, 12⟩]⟩,
          ⟨[⟨"A bigger font title!".data, 20⟩]⟩]]).get j).1 <
        ((candidates [Block.withLines [⟨[⟨"A decent plain title".data, 12⟩]⟩,
          ⟨[⟨"A bigger font title!".data, 20⟩]⟩]]).get i).1 :=
  ⟨by decide, extract_pdf_title_first_largest _ (by decide)⟩

/-- Witness for C9 at a concrete one-candidate first page. -/
theorem extract_pdf_title_result_valid_witness :
    extract_pdf_title (.parsed [Block.withLines
        [⟨[⟨"A decent plain title".data, 12⟩]⟩]]) =
      some "A decent plain title".data ∧
    (is_valid_title "A decent plain title".data = true ∧
      stripL "A decent plain title".data = "A decent plain title".data ∧
      10 ≤ "A decent plain title".data.length ∧
      startsWithL arxivChars (lowerL "A decent plain title".data) = false ∧
      (hasFourDigitRun "A decent plain title".data = false ∨
        containsSubL arxivChars (lowerL "A decent plain title".data) = false) ∧
      hasBracketTok "A decent plain title".data = false ∧
      "A decent plain title".data.contains '@' = false ∧
      "A decent plain title".data ≠ []) :=
  ⟨by decide, extract_pdf_title_result_valid
    (.parsed [Block.withLines [⟨[⟨"A decent plain title".data, 12⟩]⟩]]) _
    (by decide)⟩

/-! ## Helper lemmas: the ledger -/

theorem orderById_eq_self (l : List MessageRow)
    (h : l.Pairwise (fun a b => a.id < b.id)) : orderById l = l := by
  induction l with
  | nil => rfl
  | cons x xs ih =>
    rw [List.pairwise_cons] at h
    obtain ⟨hx, hxs⟩ := h
    simp only [orderById, ih hxs]
    cases xs with
    | nil => rfl
    | cons y ys =>
      simp only [insertAsc]
      rw [if_neg]
      have := hx y (List.mem_cons_self y ys)
      omega

theorem listMessages_eq_filter (s : Store) (hwf : WFStore s) (cid : String) :
    listMessages s cid =
      s.messages.filter (fun m => m.conversation_id == cid) := by
  unfold listMessages
  exact orderById_eq_self _ (hwf.1.filter _)

theorem find?_append_isSome {α : Type} (l1 l2 : List α) (p : α → Bool)
    (h : (l2.find? p).isSome) : ((l1 ++ l2).find? p).isSome := by
  induction l1 with
  | nil => exact h
  | cons a l ih =>
    simp only [List.cons_append, List.find?_cons]
    cases hpa : p a
    · simpa using ih
    · simp

theorem alternatingPairs_append_pair (u b : MessageRow)
    (hu : u.role = "user") (hb : b.role = "bot") :
    ∀ l, alternatingPairs l = true → alternatingPairs (l ++ [u, b]) = true
  | [], _ => by simp [alternatingPairs, hu, hb]
  | [m], h => by simp [alternatingPairs] at h
  | m1 :: m2 :: r, h => by
    simp only [alternatingPairs, Bool.and_eq_true] at h
    simp only [List.cons_append, alternatingPairs, Bool.and_eq_true]
    exact ⟨h.1, alternatingPairs_append_pair u b hu hb r h.2⟩

theorem ascIds_append_pair (u b : MessageRow) (hub : u.id < b.id) :
    ∀ l, ascIds l = true → (∀ m ∈ l, m.id < u.id) →
      ascIds (l ++ [u, b]) = true
  | [], _, _ => by simp [ascIds, hub]
  | [m], _, hbound => by
    have hm : m.id < u.id := hbound m (List.mem_cons_self m [])
    simp [ascIds, hm, hub]
  | m1 :: m2 :: r, h, hbound => by
    simp only [ascIds, Bool.and_eq_true] at h
    simp only [List.cons_append, ascIds, Bool.and_eq_true]
    refine ⟨h.1, ?_⟩
    have := ascIds_append_pair u b hub (m2 :: r) h.2
      (fun m hm => hbound m (List.mem_cons_of_mem m1 hm))
    simpa using this

theorem head?_append_left {α : Type} (l l' : List α) (h : l ≠ []) :
    (l ++ l').head? = l.head? := by
  cases l with
  | nil => exact absurd rfl h
  | cons a r => simp

theorem upload_pdf_ok (s : Store) (d : Disk) (filename api_key : String)
    (bytes : List Nat) (cid fid url ct nm : String) (botF : BotOracle)
    (chunks : List String) (parsed : ParseOutcome)
    (hkey : api_key ≠ "") (hpdf : pdfName filename = true) (hbytes : bytes ≠ [])
    (hbot : botF (uploadOutbound url ct nm) = .ok chunks) :
    upload_pdf s d filename api_key bytes cid fid (.ok url ct nm) botF parsed =
      (.ok (cid, concatChunks chunks),
        { conversations := s.conversations ++
            [⟨cid, some (uploadTitle parsed filename), some filename, "active"⟩]
          messages := s.messages ++
            [⟨s.nextId, cid, "user", initial_prompt⟩,
             ⟨s.nextId + 1, cid, "bot", concatChunks chunks⟩]
          fileRecords := s.fileRecords ++
            [⟨fid, cid, filename, "uploads/" ++ fid ++ ".pdf",
              some url, some ct, some nm⟩]
          nextId := s.nextId + 2 },
        ⟨d.files ++ [("uploads/" ++ fid ++ ".pdf", bytes)]⟩) := by
  unfold upload_pdf
  rw [if_neg hkey, if_neg (by simp [hpdf]), if_neg hbytes]
  simp only [hbot]

theorem continue_translation_ok (s : Store) (cid api_key : String)
    (botF : BotOracle) (conv : ConversationRow) (fr : FileRecordRow)
    (chunks : List String)
    (hkey : api_key ≠ "")
    (hconv : s.conversations.find? (fun c => c.id == cid) = some conv)
    (hfr : s.fileRecords.find? (fun r => r.conversation_id == cid) = some fr)
    (hbot : botF (continue_outbound fr (listMessages s cid)) = .ok chunks) :
    continue_translation s cid api_key botF =
      (.ok (concatChunks chunks),
        { s with
          messages := s.messages ++
            [⟨s.nextId, cid, "user", "继续"⟩,
             ⟨s.nextId + 1, cid, "bot", concatChunks chunks⟩]
          nextId := s.nextId + 2 }) := by
  unfold continue_translation
  rw [if_neg hkey, hconv, hfr]
  simp only [hbot]

theorem runContinues_spec (cid : String) :
    ∀ (calls : List ContCall) (s : Store),
      (∀ c ∈ calls, c.1 ≠ "" ∧ ∀ msgs, ∃ ch, c.2 msgs = BotOutcome.ok ch) →
      WFStore s →
      (s.conversations.find? (fun c => c.id == cid)).isSome = true →
      (s.fileRecords.find? (fun r => r.conversation_id == cid)).isSome = true →
      alternatingPairs (listMessages s cid) = true →
      ascIds (listMessages s cid) = true →
      WFStore (runContinues cid s calls) ∧
      alternatingPairs (listMessages (runContinues cid s calls) cid) = true ∧
      ascIds (listMessages (runContinues cid s calls) cid) = true ∧
      (listMessages (runContinues cid s calls) cid).length =
        (listMessages s cid).length + 2 * calls.length ∧
      (listMessages s cid ≠ [] →
        (listMessages (runContinues cid s calls) cid).head? =
          (listMessages s cid).head?)
  | [], s, _, hwf, _, _, halt, hasc =>
    ⟨hwf, halt, hasc, by simp [runContinues], fun _ => rfl⟩
  | c :: rest, s, hcalls, hwf, hconv, hfr, halt, hasc => by
    obtain ⟨hk, hok⟩ := hcalls c (List.mem_cons_self c rest)
    obtain ⟨conv, hconv'⟩ := Option.isSome_iff_exists.mp hconv
    obtain ⟨fr, hfr'⟩ := Option.isSome_iff_exists.mp hfr
    obtain ⟨ch, hbot⟩ := hok (continue_outbound fr (listMessages s cid))
    have hstep := continue_translation_ok s cid c.1 c.2 conv fr ch hk hconv' hfr' hbot
    have hrun : runContinues cid s (c :: rest) =
        runContinues cid (continue_translation s cid c.1 c.2).2 rest := rfl
    rw [hstep] at hrun
    have hflt := listMessages_eq_filter s hwf cid
    have hwf' : WFStore
        { s with
          messages := s.messages ++
            [⟨s.nextId, cid, "user", "继续"⟩,
             ⟨s.nextId + 1, cid, "bot", concatChunks ch⟩]
          nextId := s.nextId + 2 } := by
      constructor
      · rw [List.pairwise_append]
        refine ⟨hwf.1, by simp, ?_⟩
        intro a ha b hb
        have hlt := hwf.2 a ha
        simp only [List.mem_cons, List.mem_singleton] at hb
        rcases hb with hb | hb | hb
        · subst hb; simpa using hlt
        · subst hb; simp; omega
        · cases hb
      · intro m hm
        rcases List.mem_append.mp hm with h | h
        · have := hwf.2 m h
          simp only
          omega
        · simp only [List.mem_cons, List.mem_singleton] at h
          rcases h with h | h | h
          · subst h; simp
          · subst h; simp
          · cases h
    have hlm : listMessages
        { s with
          messages := s.messages ++
            [⟨s.nextId, cid, "user", "继续"⟩,
             ⟨s.nextId + 1, cid, "bot", concatChunks ch⟩]
          nextId := s.nextId + 2 } cid =
        listMessages s cid ++
          [⟨s.nextId, cid, "user", "继续"⟩,
           ⟨s.nextId + 1, cid, "bot", concatChunks ch⟩] := by
      rw [listMessages_eq_filter _ hwf', hflt]
      simp [List.filter_append]
    have hbound : ∀ m ∈ listMessages s cid, m.id < s.nextId := by
      intro m hm
      rw [hflt] at hm
      exact hwf.2 m (List.mem_of_mem_filter hm)
    have halt' := alternatingPairs_append_pair
      ⟨s.nextId, cid, "user", "继续"⟩
      ⟨s.nextId + 1, cid, "bot", concatChunks ch⟩ rfl rfl
      (listMessages s cid) halt
    have hasc' := ascIds_append_pair
      ⟨s.nextId, cid, "user", "继续"⟩
      ⟨s.nextId + 1, cid, "bot", concatChunks ch⟩ (by simp)
      (listMessages s cid) hasc hbound
    have ih := runContinues_spec cid rest
      { s with
        messages := s.messages ++
          [⟨s.nextId, cid, "user", "继续"⟩,
           ⟨s.nextId + 1, cid, "bot", concatChunks ch⟩]
        nextId := s.nextId + 2 }
      (fun c' hc' => hcalls c' (List.mem_cons_of_mem c hc'))
      hwf' hconv hfr (by rw [hlm]; exact halt') (by rw [hlm]; exact hasc')
    rw [hrun]
    obtain ⟨ih1, ih2, ih3, ih4, ih5⟩ := ih
    refine ⟨ih1, ih2, ih3, ?_, ?_⟩
    · rw [ih4, hlm]
      simp only [List.length_append, List.length_cons, List.length_nil]
      omega
    · intro hne
      rw [ih5 (by rw [hlm]; simp), hlm, head?_append_left _ _ hne]

/-! ## Claims about the endpoints -/

/-- C1: a successful `upload_pdf` followed by `N` successful
`continue_translation` calls on the created conversation leaves its
message history with exactly `2 + 2 N` entries, in strictly ascending
id order, alternating role user then bot and starting with the user
prompt; in particular immediately after the upload the history is
exactly the user prompt followed by the bot reply, in that order. -/
theorem session_history_shape (s0 : Store) (d0 : Disk)
    (filename api_key : String) (bytes : List Nat) (cid fid url ct nm : String)
    (botF : BotOracle) (chunks0 : List String) (parsed : ParseOutcome)
    (calls : List ContCall) (s1 sF : Store)
    (hwf : WFStore s0)
    (hfresh : ∀ m ∈ s0.messages, m.conversation_id ≠ cid)
    (hkey : api_key ≠ "") (hpdf : pdfName filename = true) (hbytes : bytes ≠ [])
    (hbot0 : botF (uploadOutbound url ct nm) = .ok chunks0)
    (hcalls : ∀ c ∈ calls, c.1 ≠ "" ∧ ∀ msgs, ∃ ch, c.2 msgs = BotOutcome.ok ch)
    (hs1 : s1 = (upload_pdf s0 d0 filename api_key bytes cid fid
      (.ok url ct nm) botF parsed).2.1)
    (hsF : sF = runContinues cid s1 calls) :
    listMessages s1 cid =
      [⟨s0.nextId, cid, "user", initial_prompt⟩,
       ⟨s0.nextId + 1, cid, "bot", concatChunks chunks0⟩] ∧
    (listMessages sF cid).length = 2 + 2 * calls.length ∧
    ascIds (listMessages sF cid) = true ∧
    alternatingPairs (listMessages sF cid) = true ∧
    (listMessages sF cid).head? =
      some ⟨s0.nextId, cid, "user", initial_prompt⟩ := by
  subst hsF
  subst hs1
  rw [upload_pdf_ok s0 d0 filename api_key bytes cid fid url ct nm botF chunks0
    parsed hkey hpdf hbytes hbot0]
  dsimp only
  have hwfR : WFStore
      { s0 with
        conversations := s0.conversations ++
          [⟨cid, some (uploadTitle parsed filename), some filename, "active"⟩]
        messages := s0.messages ++
          [⟨s0.nextId, cid, "user", initial_prompt⟩,
           ⟨s0.nextId + 1, cid, "bot", concatChunks chunks0⟩]
        fileRecords := s0.fileRecords ++
          [⟨fid, cid, filename, "uploads/" ++ fid ++ ".pdf",
            some url, some ct, some nm⟩]
        nextId := s0.nextId + 2 } := by
    constructor
    · rw [List.pairwise_append]
      refine ⟨hwf.1, by simp, ?_⟩
      intro a ha b hb
      have hlt := hwf.2 a ha
      simp only [List.mem_cons, List.mem_singleton] at hb
      rcases hb with hb | hb | hb
      · subst hb; simpa using hlt
      · subst hb; simp; omega
      · cases hb
    · intro m hm
      rcases List.mem_append.mp hm with h | h
      · have := hwf.2 m h
        simp only
        omega
      · simp only [List.mem_cons, List.mem_singleton] at h
        rcases h with h | h | h
        · subst h; simp
        · subst h; simp
        · cases h
  have hlmR : listMessages
      { s0 with
        conversations := s0.conversations ++
          [⟨cid, some (uploadTitle parsed filename), some filename, "active"⟩]
        messages := s0.messages ++
          [⟨s0.nextId, cid, "user", initial_prompt⟩,
           ⟨s0.nextId + 1, cid, "bot", concatChunks chunks0⟩]
        fileRecords := s0.fileRecords ++
          [⟨fid, cid, filename, "uploads/" ++ fid ++ ".pdf",
            some url, some ct, some nm⟩]
        nextId := s0.nextId + 2 } cid =
      [⟨s0.nextId, cid, "user", initial_prompt⟩,
       ⟨s0.nextId + 1, cid, "bot", concatChunks chunks0⟩] := by
    rw [listMessages_eq_filter _ hwfR]
    have hnil : s0.messages.filter (fun m => m.conversation_id == cid) = [] := by
      rw [List.filter_eq_nil_iff]
      intro m hm
      simpa using hfresh m hm
    simp [List.filter_append, hnil]
  have hconvR :
      (((s0.conversations ++
        [⟨cid, some (uploadTitle parsed filename), some filename,
          "active"⟩]) : List ConversationRow).find?
        (fun c => c.id == cid)).isSome = true := by
    apply find?_append_isSome
    simp [List.find?]
  have hfrR :
      (((s0.fileRecords ++
        [⟨fid, cid, filename, "uploads/" ++ fid ++ ".pdf",
          some url, some ct, some nm⟩]) : List FileRecordRow).find?
        (fun r => r.conversation_id == cid)).isSome = true := by
    apply find?_append_isSome
    simp [List.find?]
  obtain ⟨_, a2, a3, a4, a5⟩ := runContinues_spec cid calls _ hcalls hwfR
    hconvR hfrR (by rw [hlmR]; simp [alternatingPairs])
    (by rw [hlmR]; simp [ascIds])
  refine ⟨hlmR, ?_, a3, a2, ?_⟩
  · rw [a4, hlmR]
    simp
  · rw [a5 (by rw [hlmR]; simp), hlmR]
    simp

theorem enumFrom_map_plain (fr : FileRecordRow) :
    ∀ (l : List MessageRow) (n : Nat), n ≠ 0 →
      ((List.enumFrom n l).map fun p =>
        if p.1 == 0 && p.2.role == "user"
        then (⟨"user", p.2.content, [rebuildAttachment fr]⟩ : ProtocolMessage)
        else ⟨p.2.role, p.2.content, []⟩) =
      l.map fun m => (⟨m.role, m.content, []⟩ : ProtocolMessage)
  | [], _, _ => rfl
  | m :: ms, n, hn => by
    simp only [List.enumFrom_cons, List.map_cons]
    rw [if_neg (by simp [hn])]
    rw [enumFrom_map_plain fr ms (n + 1) (by omega)]

/-- C3: on a stored history whose first message is the user prompt, the
outbound list of a continuation turn is exactly the history in order —
the attachment handle rebuilt from the stored file-record fields
re-attached to the first message only, every other message carrying
only its stored role and content — followed by the new synthetic user
message `"继续"`; in particular it has `k + 1` entries for a history of
`k`. -/
theorem continue_outbound_structure (fr : FileRecordRow) (m0 : MessageRow)
    (rest : List MessageRow) (h : m0.role = "user") :
    continue_outbound fr (m0 :: rest) =
      ⟨"user", m0.content, [rebuildAttachment fr]⟩ ::
        ((rest.map fun m => ⟨m.role, m.content, []⟩) ++ [contMsg]) ∧
    (continue_outbound fr (m0 :: rest)).length = (m0 :: rest).length + 1 := by
  have heq : continue_outbound fr (m0 :: rest) =
      ⟨"user", m0.content, [rebuildAttachment fr]⟩ ::
        ((rest.map fun m => ⟨m.role, m.content, []⟩) ++ [contMsg]) := by
    unfold continue_outbound
    simp only [List.enum, List.enumFrom_cons, List.map_cons]
    rw [if_pos (by simp [h])]
    rw [enumFrom_map_plain fr rest (0 + 1) (by omega)]
    rfl
  refine ⟨heq, ?_⟩
  rw [heq]
  simp

/-- Witness for C3 on a concrete two-message history. -/
theorem continue_outbound_structure_witness :
    continue_outbound ⟨"f1", "c1", "p.pdf", "uploads/f1.pdf",
        some "u", some "ct", some "n"⟩
      [⟨1, "c1", "user", "prompt"⟩, ⟨2, "c1", "bot", "reply"⟩] =
      ⟨"user", "prompt", [rebuildAttachment ⟨"f1", "c1", "p.pdf",
          "uploads/f1.pdf", some "u", some "ct", some "n"⟩]⟩ ::
        ((([⟨2, "c1", "bot", "reply"⟩] : List MessageRow).map
          fun m => (⟨m.role, m.content, []⟩ : ProtocolMessage)) ++ [contMsg]) ∧
    (continue_outbound ⟨"f1", "c1", "p.pdf", "uploads/f1.pdf",
        some "u", some "ct", some "n"⟩
      [⟨1, "c1", "user", "prompt"⟩, ⟨2, "c1", "bot", "reply"⟩]).length =
      ([⟨1, "c1", "user", "prompt"⟩,
        (⟨2, "c1", "bot", "reply"⟩ : MessageRow)]).length + 1 :=
  continue_outbound_structure _ ⟨1, "c1", "user", "prompt"⟩
    [⟨2, "c1", "bot", "reply"⟩] rfl

/-- C10: when the first stored message's role is not `"user"`, the
attachment is attached nowhere: the bot is invoked with the full
history, every outbound message plain role+content, the trailing
`"继续"` appended, and no outbound message carries any attachment. -/
theorem continue_outbound_no_attachment_first_not_user
    (fr : FileRecordRow) (m0 : MessageRow) (rest : List MessageRow)
    (h : m0.role ≠ "user") :
    continue_outbound fr (m0 :: rest) =
      ((m0 :: rest).map fun m =>
        (⟨m.role, m.content, []⟩ : ProtocolMessage)) ++ [contMsg] ∧
    ∀ pm ∈ continue_outbound fr (m0 :: rest), pm.attachments = [] := by
  have heq : continue_outbound fr (m0 :: rest) =
      ((m0 :: rest).map fun m =>
        (⟨m.role, m.content, []⟩ : ProtocolMessage)) ++ [contMsg] := by
    unfold continue_outbound
    simp only [List.enum, List.enumFrom_cons, List.map_cons]
    rw [if_neg (by simp [h])]
    rw [enumFrom_map_plain fr rest (0 + 1) (by omega)]
  refine ⟨heq, ?_⟩
  rw [heq]
  intro pm hpm
  rcases List.mem_append.mp hpm with hmem | hmem
  · obtain ⟨m, _, rfl⟩ := List.mem_map.mp hmem
    rfl
  · simp only [List.mem_singleton] at hmem
    subst hmem
    rfl

/-- Witness for C10 on a concrete history starting with a bot message. -/
theorem continue_outbound_no_attachment_first_not_user_witness :
    continue_outbound ⟨"f1", "c1", "p.pdf", "uploads/f1.pdf",
        some "u", some "ct", some "n"⟩
      [⟨1, "c1", "bot", "stray"⟩] =
      (([⟨1, "c1", "bot", "stray"⟩] : List MessageRow).map
        fun m => (⟨m.role, m.content, []⟩ : ProtocolMessage)) ++ [contMsg] ∧
    ∀ pm ∈ continue_outbound ⟨"f1", "c1", "p.pdf", "uploads/f1.pdf",
        some "u", some "ct", some "n"⟩
      [⟨1, "c1", "bot", "stray"⟩], pm.attachments = [] :=
  continue_outbound_no_attachment_first_not_user _ ⟨1, "c1", "bot", "stray"⟩
    [] (by decide)

/-- Witness for C1: an upload followed by one continuation on an empty
initial store. -/
theorem session_history_shape_witness :
    listMessages (upload_pdf ⟨[], [], [], 1⟩ ⟨[]⟩ "paper.pdf" "k" [1] "c1" "f1"
        (.ok "u" "ct" "n") (fun _ => .ok ["摘要"]) .parseFail).2.1 "c1" =
      [⟨1, "c1", "user", initial_prompt⟩,
       ⟨2, "c1", "bot", concatChunks ["摘要"]⟩] ∧
    (listMessages (runContinues "c1"
        (upload_pdf ⟨[], [], [], 1⟩ ⟨[]⟩ "paper.pdf" "k" [1] "c1" "f1"
          (.ok "u" "ct" "n") (fun _ => .ok ["摘要"]) .parseFail).2.1
        [("k2", fun _ => .ok ["第二章"])]) "c1").length = 2 + 2 * 1 ∧
    ascIds (listMessages (runContinues "c1"
        (upload_pdf ⟨[], [], [], 1⟩ ⟨[]⟩ "paper.pdf" "k" [1] "c1" "f1"
          (.ok "u" "ct" "n") (fun _ => .ok ["摘要"]) .parseFail).2.1
        [("k2", fun _ => .ok ["第二章"])]) "c1") = true ∧
    alternatingPairs (listMessages (runContinues "c1"
        (upload_pdf ⟨[], [], [], 1⟩ ⟨[]⟩ "paper.pdf" "k" [1] "c1" "f1"
          (.ok "u" "ct" "n") (fun _ => .ok ["摘要"]) .parseFail).2.1
        [("k2", fun _ => .ok ["第二章"])]) "c1") = true ∧
    (listMessages (runContinues "c1"
        (upload_pdf ⟨[], [], [], 1⟩ ⟨[]⟩ "paper.pdf" "k" [1] "c1" "f1"
          (.ok "u" "ct" "n") (fun _ => .ok ["摘要"]) .parseFail).2.1
        [("k2", fun _ => .ok ["第二章"])]) "c1").head? =
      some ⟨1, "c1", "user", initial_prompt⟩ :=
  session_history_shape ⟨[], [], [], 1⟩ ⟨[]⟩ "paper.pdf" "k" [1] "c1" "f1"
    "u" "ct" "n" (fun _ => .ok ["摘要"]) ["摘要"] .parseFail
    [("k2", fun _ => .ok ["第二章"])] _ _
    ⟨List.Pairwise.nil, fun m hm => absurd hm (List.not_mem_nil m)⟩
    (fun m hm => absurd hm (List.not_mem_nil m))
    (by decide) (by decide) (by decide) rfl
    (by
      intro c hc
      simp only [List.mem_singleton] at hc
      subst hc
      exact ⟨by decide, fun msgs => ⟨["第二章"], rfl⟩⟩)
    rfl rfl

/-- C2: a failed external call leaves the ledger exactly as it was.
Part 1: `upload_pdf` whose attachment upload (`fp.upload_file`) fails
surfaces an upstream error and leaves the store untouched.  Part 2:
`upload_pdf` whose bot stream fails (after any prefix of chunks)
surfaces an upstream error and leaves the store untouched.  Part 3:
`continue_translation` whose bot stream fails surfaces an upstream
error and leaves the store untouched.  In all three cases no
conversation row, file record, or message — in particular no partial
turn pair — is ever visible. -/
theorem failed_bot_leaves_ledger_unchanged :
    (∀ (s : Store) (d : Disk) (filename api_key : String) (bytes : List Nat)
      (cid fid : String) (botF : BotOracle) (parsed : ParseOutcome),
      api_key ≠ "" → pdfName filename = true → bytes ≠ [] →
      (upload_pdf s d filename api_key bytes cid fid .fail botF parsed).1 =
        .error .upstream ∧
      (upload_pdf s d filename api_key bytes cid fid .fail botF parsed).2.1 = s) ∧
    (∀ (s : Store) (d : Disk) (filename api_key : String) (bytes : List Nat)
      (cid fid url ct nm : String) (botF : BotOracle) (parsed : ParseOutcome)
      (pc : List String),
      api_key ≠ "" → pdfName filename = true → bytes ≠ [] →
      botF (uploadOutbound url ct nm) = .fail pc →
      (upload_pdf s d filename api_key bytes cid fid
        (.ok url ct nm) botF parsed).1 = .error .upstream ∧
      (upload_pdf s d filename api_key bytes cid fid
        (.ok url ct nm) botF parsed).2.1 = s) ∧
    (∀ (s : Store) (cid api_key : String) (botF : BotOracle)
      (conv : ConversationRow) (fr : FileRecordRow) (pc : List String),
      api_key ≠ "" →
      s.conversations.find? (fun c => c.id == cid) = some conv →
      s.fileRecords.find? (fun r => r.conversation_id == cid) = some fr →
      botF (continue_outbound fr (listMessages s cid)) = .fail pc →
      (continue_translation s cid api_key botF).1 = .error .upstream ∧
      (continue_translation s cid api_key botF).2 = s) := by
  refine ⟨?_, ?_, ?_⟩
  · intro s d filename api_key bytes cid fid botF parsed hkey hpdf hbytes
    unfold upload_pdf
    rw [if_neg hkey, if_neg (by simp [hpdf]), if_neg hbytes]
    exact ⟨rfl, rfl⟩
  · intro s d filename api_key bytes cid fid url ct nm botF parsed pc
      hkey hpdf hbytes hbot
    unfold upload_pdf
    rw [if_neg hkey, if_neg (by simp [hpdf]), if_neg hbytes]
    dsimp only
    rw [hbot]
    exact ⟨rfl, rfl⟩
  · intro s cid api_key botF conv fr pc hkey hconv hfr hbot
    unfold continue_translation
    rw [if_neg hkey, hconv, hfr]
    dsimp only
    rw [hbot]
    exact ⟨rfl, rfl⟩

/-- Witness for C2 at concrete stores and oracles for all three parts. -/
theorem failed_bot_leaves_ledger_unchanged_witness :
    ((upload_pdf ⟨[], [], [], 1⟩ ⟨[]⟩ "paper.pdf" "k" [1] "c1" "f1" .fail
        (fun _ => .ok []) .parseFail).1 = .error .upstream ∧
      (upload_pdf ⟨[], [], [], 1⟩ ⟨[]⟩ "paper.pdf" "k" [1] "c1" "f1" .fail
        (fun _ => .ok []) .parseFail).2.1 = ⟨[], [], [], 1⟩) ∧
    ((upload_pdf ⟨[], [], [], 1⟩ ⟨[]⟩ "paper.pdf" "k" [1] "c1" "f1"
        (.ok "u" "ct" "n") (fun _ => .fail ["部分"]) .parseFail).1 =
        .error .upstream ∧
      (upload_pdf ⟨[], [], [], 1⟩ ⟨[]⟩ "paper.pdf" "k" [1] "c1" "f1"
        (.ok "u" "ct" "n") (fun _ => .fail ["部分"]) .parseFail).2.1 =
        ⟨[], [], [], 1⟩) ∧
    ((continue_translation ⟨[⟨"c1", some "t", some "o", "active"⟩],
        [⟨1, "c1", "user", "p"⟩],
        [⟨"f1", "c1", "a.pdf", "uploads/f1.pdf", some "u", some "ct", some "n"⟩],
        2⟩ "c1" "k" (fun _ => .fail ["部分"])).1 = .error .upstream ∧
      (continue_translation ⟨[⟨"c1", some "t", some "o", "active"⟩],
        [⟨1, "c1", "user", "p"⟩],
        [⟨"f1", "c1", "a.pdf", "uploads/f1.pdf", some "u", some "ct", some "n"⟩],
        2⟩ "c1" "k" (fun _ => .fail ["部分"])).2 =
        ⟨[⟨"c1", some "t", some "o", "active"⟩],
        [⟨1, "c1", "user", "p"⟩],
        [⟨"f1", "c1", "a.pdf", "uploads/f1.pdf", some "u", some "ct", some "n"⟩],
        2⟩) :=
  ⟨failed_bot_leaves_ledger_unchanged.1 ⟨[], [], [], 1⟩ ⟨[]⟩ "paper.pdf" "k"
      [1] "c1" "f1" (fun _ => .ok []) .parseFail
      (by decide) (by decide) (by decide),
    failed_bot_leaves_ledger_unchanged.2.1 ⟨[], [], [], 1⟩ ⟨[]⟩ "paper.pdf"
      "k" [1] "c1" "f1" "u" "ct" "n" (fun _ => .fail ["部分"]) .parseFail
      ["部分"] (by decide) (by decide) (by decide) rfl,
    failed_bot_leaves_ledger_unchanged.2.2 ⟨[⟨"c1", some "t", some "o",
        "active"⟩], [⟨1, "c1", "user", "p"⟩],
        [⟨"f1", "c1", "a.pdf", "uploads/f1.pdf", some "u", some "ct", some "n"⟩],
        2⟩ "c1" "k" (fun _ => .fail ["部分"])
      ⟨"c1", some "t", some "o", "active"⟩
      ⟨"f1", "c1", "a.pdf", "uploads/f1.pdf", some "u", some "ct", some "n"⟩
      ["部分"] (by decide) rfl rfl rfl⟩

/-- C4: `continue_translation` on a conversation id that does not exist
(or whose conversation has no file record) returns a NotFound error and
leaves the whole store unchanged. -/
theorem continue_notfound_noop :
    ∀ (s : Store) (cid api_key : String) (botF : BotOracle),
      api_key ≠ "" →
      (s.conversations.find? (fun c => c.id == cid) = none ∨
        s.fileRecords.find? (fun r => r.conversation_id == cid) = none) →
      (∃ detail, (continue_translation s cid api_key botF).1 =
        .error (.notFound detail)) ∧
      (continue_translation s cid api_key botF).2 = s := by
  intro s cid api_key botF hkey hmiss
  unfold continue_translation
  rw [if_neg hkey]
  rcases hmiss with hc | hf
  · rw [hc]
    exact ⟨⟨"Conversation not found", rfl⟩, rfl⟩
  · cases hcv : s.conversations.find? (fun c => c.id == cid) with
    | none => exact ⟨⟨"Conversation not found", rfl⟩, rfl⟩
    | some conv =>
      rw [hf]
      exact ⟨⟨"File record not found", rfl⟩, rfl⟩

/-- Witness for C4 on the empty store and on a store whose conversation
exists but has no file record. -/
theorem continue_notfound_noop_witness :
    ((∃ detail, (continue_translation ⟨[], [], [], 1⟩ "nope" "k"
        (fun _ => .ok [])).1 = .error (.notFound detail)) ∧
      (continue_translation ⟨[], [], [], 1⟩ "nope" "k"
        (fun _ => .ok [])).2 = ⟨[], [], [], 1⟩) ∧
    ((∃ detail, (continue_translation ⟨[⟨"c1", some "t", some "o", "active"⟩],
        [], [], 1⟩ "c1" "k" (fun _ => .ok [])).1 =
          .error (.notFound detail)) ∧
      (continue_translation ⟨[⟨"c1", some "t", some "o", "active"⟩],
        [], [], 1⟩ "c1" "k" (fun _ => .ok [])).2 =
        ⟨[⟨"c1", some "t", some "o", "active"⟩], [], [], 1⟩) :=
  ⟨continue_notfound_noop ⟨[], [], [], 1⟩ "nope" "k" (fun _ => .ok [])
      (by decide) (Or.inl rfl),
    continue_notfound_noop ⟨[⟨"c1", some "t", some "o", "active"⟩], [], [], 1⟩
      "c1" "k" (fun _ => .ok []) (by decide) (Or.inr rfl)⟩

/-- C8 counterexample: a validated upload request whose external
attachment upload fails still writes the local file before failing —
contradicting the claim that no local file is written when the upload
request fails. -/
theorem upload_upstream_failure_writes_file :
    (upload_pdf ⟨[], [], [], 1⟩ ⟨[]⟩ "paper.pdf" "k" [1] "c1" "f1" .fail
      (fun _ => .ok []) .parseFail).1 = .error .upstream ∧
    (upload_pdf ⟨[], [], [], 1⟩ ⟨[]⟩ "paper.pdf" "k" [1] "c1" "f1" .fail
      (fun _ => .ok []) .parseFail).2.2.files = [("uploads/f1.pdf", [1])] ∧
    (upload_pdf ⟨[], [], [], 1⟩ ⟨[]⟩ "paper.pdf" "k" [1] "c1" "f1" .fail
      (fun _ => .ok []) .parseFail).2.2.files ≠ ([] : List (String × List Nat)) :=
  ⟨rfl, rfl, by decide⟩

/-- C8 (amended): the attachment store writes exactly one local file
for every upload request that passes input validation — whether or not
the subsequent external upload or bot stream succeeds (the local save
precedes the external call) — writes nothing when validation fails,
and never deletes a file. -/
theorem upload_local_write_policy :
    (∀ (s : Store) (d : Disk) (filename api_key : String) (bytes : List Nat)
      (cid fid : String) (up : UpOutcome) (botF : BotOracle)
      (parsed : ParseOutcome),
      api_key ≠ "" → pdfName filename = true → bytes ≠ [] →
      (upload_pdf s d filename api_key bytes cid fid up botF
        parsed).2.2.files =
        d.files ++ [("uploads/" ++ fid ++ ".pdf", bytes)]) ∧
    (∀ (s : Store) (d : Disk) (filename api_key : String) (bytes : List Nat)
      (cid fid : String) (up : UpOutcome) (botF : BotOracle)
      (parsed : ParseOutcome),
      (api_key = "" ∨ pdfName filename ≠ true ∨ bytes = []) →
      (upload_pdf s d filename api_key bytes cid fid up botF
        parsed).2.2.files = d.files) ∧
    (∀ (s : Store) (d : Disk) (filename api_key : String) (bytes : List Nat)
      (cid fid : String) (up : UpOutcome) (botF : BotOracle)
      (parsed : ParseOutcome),
      ∃ suffix, (upload_pdf s d filename api_key bytes cid fid up botF
        parsed).2.2.files = d.files ++ suffix) := by
  have hpass : ∀ (s : Store) (d : Disk) (filename api_key : String)
      (bytes : List Nat) (cid fid : String) (up : UpOutcome)
      (botF : BotOracle) (parsed : ParseOutcome),
      api_key ≠ "" → pdfName filename = true → bytes ≠ [] →
      (upload_pdf s d filename api_key bytes cid fid up botF
        parsed).2.2.files =
        d.files ++ [("uploads/" ++ fid ++ ".pdf", bytes)] := by
    intro s d filename api_key bytes cid fid up botF parsed hkey hpdf hbytes
    unfold upload_pdf
    rw [if_neg hkey, if_neg (by simp [hpdf]), if_neg hbytes]
    cases up with
    | fail => rfl
    | ok url ct nm =>
      dsimp only
      cases hb : botF (uploadOutbound url ct nm) with
      | fail pc => rfl
      | ok chs => rfl
  refine ⟨hpass, ?_, ?_⟩
  · intro s d filename api_key bytes cid fid up botF parsed hfail
    unfold upload_pdf
    rcases hfail with h | h | h
    · rw [if_pos h]
    · by_cases hkey : api_key = ""
      · rw [if_pos hkey]
      · rw [if_neg hkey, if_pos (by simpa using h)]
    · by_cases hkey : api_key = ""
      · rw [if_pos hkey]
      · rw [if_neg hkey]
        by_cases hpdf : pdfName filename = true
        · rw [if_neg (by simpa using hpdf)]
          rw [if_pos h]
        · rw [if_pos (by simpa using hpdf)]
  · intro s d filename api_key bytes cid fid up botF parsed
    by_cases hkey : api_key = ""
    · exact ⟨[], by unfold upload_pdf; rw [if_pos hkey]; simp⟩
    · by_cases hpdf : pdfName filename = true
      · by_cases hbytes : bytes = []
        · refine ⟨[], ?_⟩
          unfold upload_pdf
          rw [if_neg hkey, if_neg (by simpa using hpdf), if_pos hbytes]
          simp
        · exact ⟨[("uploads/" ++ fid ++ ".pdf", bytes)],
            hpass s d filename api_key bytes cid fid up botF parsed
              hkey hpdf hbytes⟩
      · refine ⟨[], ?_⟩
        unfold upload_pdf
        rw [if_neg hkey, if_pos (by simpa using hpdf)]
        simp

/-- Witness for C8 (amended) at a concrete validated request with a
failing external upload and at a concrete validation failure. -/
theorem upload_local_write_policy_witness :
    (upload_pdf ⟨[], [], [], 1⟩ ⟨[("uploads/old.pdf", [7])]⟩ "paper.pdf" "k"
      [1] "c1" "f1" .fail (fun _ => .ok []) .parseFail).2.2.files =
      [("uploads/old.pdf", [7])] ++ [("uploads/" ++ "f1" ++ ".pdf", [1])] ∧
    (upload_pdf ⟨[], [], [], 1⟩ ⟨[("uploads/old.pdf", [7])]⟩ "paper.txt" "k"
      [1] "c1" "f1" .fail (fun _ => .ok []) .parseFail).2.2.files =
      [("uploads/old.pdf", [7])] ∧
    (∃ suffix, (upload_pdf ⟨[], [], [], 1⟩ ⟨[("uploads/old.pdf", [7])]⟩
      "paper.pdf" "k" [1] "c1" "f1" .fail (fun _ => .ok [])
      .parseFail).2.2.files = [("uploads/old.pdf", [7])] ++ suffix) :=
  ⟨upload_local_write_policy.1 ⟨[], [], [], 1⟩ ⟨[("uploads/old.pdf", [7])]⟩
      "paper.pdf" "k" [1] "c1" "f1" .fail (fun _ => .ok []) .parseFail
      (by decide) (by decide) (by decide),
    upload_local_write_policy.2.1 ⟨[], [], [], 1⟩ ⟨[("uploads/old.pdf", [7])]⟩
      "paper.txt" "k" [1] "c1" "f1" .fail (fun _ => .ok []) .parseFail
      (Or.inr (Or.inl (by decide))),
    upload_local_write_policy.2.2 ⟨[], [], [], 1⟩ ⟨[("uploads/old.pdf", [7])]⟩
      "paper.pdf" "k" [1] "c1" "f1" .fail (fun _ => .ok []) .parseFail⟩
